/-
Verification of the Structured-Record Merge & Tabular-Projection Engine
of the Mistral_OCR_PDF_Extraction repository.

Shallow embedding of:
  * models.py            (pydantic models StructuredOCR, PDFPage, ExtractionResult)
  * data_extractor.py    (DataExtractor.extract_data and its fallback merge)
  * ocr_processor.py     (prompt lookup and the prompt-text computation of
                          OCRProcessor.structured_ocr)
  * json_to_dataframe.py (JsonToDataFrame.create_dataframe_from_extraction_result,
                          JsonToDataFrame.export_dataframe name sanitization,
                          extract_dataframes_from_ocr_json)

Python JSON-like dynamic values are embedded as the inductive type `Val`
(scalars, lists, ordered string-keyed mappings).  Python dicts are embedded
as insertion-ordered association lists with unique keys, with assignment
`d[k] = v` embedded as `setA` (update in place, else append) and membership
`k in d` as `lookupA`.  Pandas DataFrames are embedded as `Table`: a list of
rows, each row an ordered association list from column name to cell value.

Two embeddings of the fallback merge of DataExtractor.extract_data
(data_extractor.py lines 94-112) are given:

  * `extractDataFallbackMerge` reads the loop with value semantics (list
    values compared and combined as values).  It captures the observable
    result whenever the input pages do not share list objects, which is the
    case for pages produced by independent JSON parses.
  * `runMergeH` reads the same loop with Python reference semantics: list
    objects live in an explicit heap (`HState`), `extend`/`append` mutate
    the addressed heap cell in place, and the promotion branch allocates a
    fresh cell.  This embedding makes the aliasing-induced mutation of the
    input pages observable, which clause C4 is about.
-/
import Mathlib

/-! ### Dynamic values -/

/-- Embedding of a Python JSON-like value: scalar (string / number / boolean /
None), list, or string-keyed ordered mapping. -/
inductive Val where
  | str : String → Val
  | int : Int → Val
  | bool : Bool → Val
  | null : Val
  | list : List Val → Val
  | dict : List (String × Val) → Val

/-- Python `isinstance(v, str)`. -/
def Val.isStr : Val → Bool
  | .str _ => true
  | _ => false

/-- Python `isinstance(v, dict)`. -/
def Val.isDict : Val → Bool
  | .dict _ => true
  | _ => false

/-- Python `isinstance(v, list)`. -/
def Val.isList : Val → Bool
  | .list _ => true
  | _ => false

/-- A value that is neither a list nor a mapping: it occupies one table cell
without nesting. -/
def Val.isScalar : Val → Bool
  | .list _ => false
  | .dict _ => false
  | _ => true

/-- Python truthiness of an embedded value (`bool(v)`): None, False, 0, the
empty string, the empty list and the empty dict are falsy. -/
def pyTruthy : Val → Bool
  | .str s => !(s == "")
  | .int n => !(n == 0)
  | .bool b => b
  | .null => false
  | .list l => !l.isEmpty
  | .dict d => !d.isEmpty

/-! ### Ordered association lists: the embedding of Python dicts -/

/-- First-match lookup in an association list; embeds Python `d[k]` /
`k in d` on a dict whose insertion order is the list order. -/
def lookupA : List (String × α) → String → Option α
  | [], _ => none
  | (k, v) :: rest, key => if k == key then some v else lookupA rest key

/-- Embedding of Python dict assignment `d[key] = val`: replace the value at
the first occurrence of `key`, keeping its position, or append a fresh
binding at the end. -/
def setA : List (String × α) → String → α → List (String × α)
  | [], key, val => [(key, val)]
  | (k, v) :: rest, key, val =>
      if k == key then (k, val) :: rest else (k, v) :: setA rest key val

theorem lookupA_setA_self (m : List (String × α)) (k : String) (v : α) :
    lookupA (setA m k v) k = some v := by
  induction m with
  | nil => simp [setA, lookupA]
  | cons hd tl ih =>
      obtain ⟨k', v'⟩ := hd
      by_cases h : k' = k
      · simp [setA, lookupA, h]
      · simp [setA, lookupA, h, ih]

theorem lookupA_setA_ne (m : List (String × α)) (k k' : String) (v : α)
    (h : k' ≠ k) : lookupA (setA m k v) k' = lookupA m k' := by
  induction m with
  | nil => simp [setA, lookupA, Ne.symm h]
  | cons hd tl ih =>
      obtain ⟨k₀, v₀⟩ := hd
      by_cases h₀ : k₀ = k
      · subst h₀
        simp [setA, lookupA, Ne.symm h]
      · simp [setA, lookupA, h₀, ih]

theorem keys_setA (m : List (String × α)) (k : String) (v : α) :
    (setA m k v).map Prod.fst =
      if (lookupA m k).isSome then m.map Prod.fst else m.map Prod.fst ++ [k] := by
  induction m with
  | nil => simp [setA, lookupA]
  | cons hd tl ih =>
      obtain ⟨k₀, v₀⟩ := hd
      by_cases h₀ : k₀ = k
      · simp [setA, lookupA, h₀]
      · simp only [setA, lookupA, beq_iff_eq, h₀, if_false, List.map_cons, ih]
        by_cases hs : (lookupA tl k).isSome <;> simp [hs]

theorem lookupA_isSome_iff_mem_keys (m : List (String × α)) (k : String) :
    (lookupA m k).isSome = true ↔ k ∈ m.map Prod.fst := by
  induction m with
  | nil => simp [lookupA]
  | cons hd tl ih =>
      obtain ⟨k₀, v₀⟩ := hd
      by_cases h₀ : k₀ = k
      · simp [lookupA, h₀]
      · simp only [lookupA, beq_iff_eq, h₀, if_false, List.map_cons, List.mem_cons]
        rw [ih]
        constructor
        · exact fun hm => Or.inr hm
        · rintro (hm | hm)
          · exact absurd hm.symm h₀
          · exact hm

theorem lookupA_append_right (m m' : List (String × α)) (k : String)
    (h : lookupA m k = none) : lookupA (m ++ m') k = lookupA m' k := by
  induction m with
  | nil => simp
  | cons hd tl ih =>
      obtain ⟨k₀, v₀⟩ := hd
      by_cases h₀ : k₀ = k
      · simp [lookupA, h₀] at h
      · simp only [lookupA, beq_iff_eq, h₀, if_false] at h
        simp [lookupA, h₀, ih h]

theorem setA_absent (m : List (String × α)) (k : String) (v : α)
    (h : lookupA m k = none) : setA m k v = m ++ [(k, v)] := by
  induction m with
  | nil => simp [setA]
  | cons hd tl ih =>
      obtain ⟨k₀, v₀⟩ := hd
      by_cases h₀ : k₀ = k
      · simp [lookupA, h₀] at h
      · simp only [lookupA, beq_iff_eq, h₀, if_false] at h
        simp [setA, h₀, ih h]

/-! ### Record model (models.py) -/

/-- Embedding of the pydantic model `StructuredOCR` (models.py lines 11-16):
a file name and an ordered mapping of OCR contents. -/
structure StructuredOCRV where
  file_name : String
  ocr_contents : List (String × Val)

/-- Embedding of the pydantic model `PDFPage` (models.py lines 19-25):
`ocr_data` defaults to `None`, embedded as `Option`. -/
structure PDFPageV where
  page_number : Int
  image_path : String
  ocr_data : Option StructuredOCRV

/-- Embedding of the pydantic model `ExtractionResult` (models.py lines 28-34). -/
structure ExtractionResultV where
  pdf_file : String
  prompt_name : String
  extracted_data : List (String × Val)

/-- Embedding of pydantic validation for `StructuredOCR(file_name=..,
ocr_contents=..)` with a dynamic `ocr_contents` argument: models.py declares
`ocr_contents: dict`, so pydantic rejects any value that is not a mapping and
accepts any mapping. -/
def StructuredOCR.validate (file_name : String) (ocr_contents : Val) :
    Except String StructuredOCRV :=
  match ocr_contents with
  | .dict d => .ok ⟨file_name, d⟩
  | _ => .error "ValidationError: ocr_contents is not a dict"

/-- Embedding of pydantic validation for `PDFPage(page_number=..,
image_path=.., ocr_data=..)`: models.py declares `page_number: int` with no
range constraint, so construction succeeds for every integer, including zero
and negative values. -/
def PDFPage.validate (page_number : Int) (image_path : String)
    (ocr_data : Option StructuredOCRV) : Except String PDFPageV :=
  .ok ⟨page_number, image_path, ocr_data⟩

/-- Whether an `Except` result is a success, i.e. the Python constructor call
returned normally instead of raising. -/
def exceptOk : Except String α → Bool
  | .ok _ => true
  | .error _ => false

/-! ### Merge Engine, value semantics (data_extractor.py lines 94-112) -/

/-- One iteration of the inner loop of `DataExtractor.extract_data`
(data_extractor.py lines 100-112), read with value semantics:

    if key in extracted_data:
        if isinstance(extracted_data[key], list):
            if isinstance(value, list): extracted_data[key].extend(value)
            else: extracted_data[key].append(value)
        else:
            extracted_data[key] = [extracted_data[key], value]
    else:
        extracted_data[key] = value
-/
def mergeKV (m : List (String × Val)) (k : String) (v : Val) :
    List (String × Val) :=
  match lookupA m k with
  | some cur =>
      match cur with
      | .list l =>
          match v with
          | .list l2 => setA m k (.list (l ++ l2))
          | _ => setA m k (.list (l ++ [v]))
      | _ => setA m k (.list [cur, v])
  | none => setA m k v

/-- The whole fallback merge loop of `DataExtractor.extract_data`
(data_extractor.py lines 94-112): pages are visited in input list order and a
page whose `ocr_data` is `None` is skipped (`if page.ocr_data:`). -/
def extractDataFallbackMerge (pages : List PDFPageV) : List (String × Val) :=
  pages.foldl
    (fun m p =>
      match p.ocr_data with
      | some od => od.ocr_contents.foldl (fun m kv => mergeKV m kv.1 kv.2) m
      | none => m)
    []

/-- Embedding of `DataExtractor.extract_data` (data_extractor.py lines
60-118).  `prompts` is the dictionary loaded by `_load_prompts`; `combined`
stands for the outcome of the OCR-processor path: it is `some s` exactly when
`self.ocr_processor` is set and `process_pdf_pages` returned a
`StructuredOCR` instance `s`, in which case the merge is bypassed; otherwise
the fallback merge over the pages runs.  A missing prompt raises
`ValueError` (lines 76-77), embedded as `.error`. -/
def DataExtractor.extract_data (prompts : List (String × String))
    (combined : Option StructuredOCRV) (pages : List PDFPageV)
    (prompt_name pdf_file : String) : Except String ExtractionResultV :=
  if (lookupA prompts prompt_name).isNone then
    .error ("ValueError: Le prompt " ++ prompt_name ++ " n existe pas")
  else
    match combined with
    | some s => .ok ⟨pdf_file, prompt_name, s.ocr_contents⟩
    | none => .ok ⟨pdf_file, prompt_name, extractDataFallbackMerge pages⟩

/-! ### Prompt handling (ocr_processor.py) -/

/-- Embedding of `OCRProcessor.get_extraction_prompt` (ocr_processor.py lines
50-68): the prompt directory is abstracted as a partial map from prompt name
to file contents; a missing file raises `FileNotFoundError`. -/
def OCRProcessor.get_extraction_prompt (store : String → Option String)
    (prompt_name : String) : Except String String :=
  match store prompt_name with
  | some txt => .ok txt
  | none => .error "FileNotFoundError"

/-- Embedding of the extraction-instruction text computed by
`OCRProcessor.structured_ocr` (ocr_processor.py lines 100-106):

    fields_extraction_text = ""
    if prompt_name:
        try:
            fields_extraction_text = f"...{self.get_extraction_prompt(prompt_name)}..."
        except FileNotFoundError as e:
            print(f"Attention: ...")

The `FileNotFoundError` raised for a missing prompt is caught, a warning is
printed, and the empty instruction text is used: processing continues. -/
def structuredOcrPromptText (store : String → Option String)
    (prompt_name : Option String) : String :=
  match prompt_name with
  | none => ""
  | some p =>
      match OCRProcessor.get_extraction_prompt store p with
      | .ok txt =>
          "Extrait les champs suivants dans une reponse au format JSON et selectionne dans les champs les informations qui correspondent a l exemple:\n"
            ++ txt ++ "\n."
      | .error _ => ""

/-! ### Reference functions for the merge (from the specification text) -/

/-- Keys contributed by one page, in the order of its contents; a page with
no `ocr_data` contributes nothing. -/
def pageKeys (p : PDFPageV) : List String :=
  match p.ocr_data with
  | some od => od.ocr_contents.map Prod.fst
  | none => []

/-- Order of first appearance of keys in a list of keys. -/
def firstSeen (l : List String) : List String :=
  l.foldl (fun acc k => if k ∈ acc then acc else acc ++ [k]) []

/-- Insertion of a page into a list sorted by ascending `page_number`. -/
def insertPageAsc (p : PDFPageV) : List PDFPageV → List PDFPageV
  | [] => [p]
  | q :: qs =>
      if p.page_number ≤ q.page_number then p :: q :: qs
      else q :: insertPageAsc p qs

/-- Stable sort of pages by ascending `page_number`, used to state the order
the specification claims the merge scans pages in. -/
def sortPagesAsc (pages : List PDFPageV) : List PDFPageV :=
  pages.foldr insertPageAsc []

/-- The per-key combination rule claimed by the specification for one more
occurrence of a key: if the stored value is a list, extend it with a list
value or append a non-list value; otherwise promote to the two-element list
of old and new value. -/
def merge2 (cur v : Val) : Val :=
  match cur with
  | .list l =>
      match v with
      | .list l2 => .list (l ++ l2)
      | _ => .list (l ++ [v])
  | _ => .list [cur, v]

/-- Fold of the claimed per-key rule over the later occurrences of a key,
starting from the first occurrence inserted unchanged. -/
def foldVals (v : Val) (vs : List Val) : Val := vs.foldl merge2 v

/-- All values contributed under key `k` by the pages, in scan order. -/
def occurrences (k : String) (pages : List PDFPageV) : List Val :=
  pages.flatMap
    (fun p =>
      match p.ocr_data with
      | some od => (od.ocr_contents.filter (fun kv => kv.1 == k)).map Prod.snd
      | none => [])

/-! ### Merge Engine, reference semantics (data_extractor.py lines 94-112)

Python lists are mutable objects shared by reference.  `HVal` boxes every
list behind a heap address, so that `extracted_data[key] = value` stores the
reference and a later `extracted_data[key].extend(value)` mutates the very
list object the contributing page still points to. -/

/-- A Python value with list objects represented by heap addresses.
Mappings are kept structural because the merge loop never mutates a page
mapping, only list objects. -/
inductive HVal where
  | scalar : String → HVal
  | ref : Nat → HVal
  | dict : List (String × HVal) → HVal

/-- A page as seen by the reference-semantics merge: `ocr_contents` is
`none` when `ocr_data` is `None`. -/
structure HPage where
  page_number : Int
  ocr_contents : Option (List (String × HVal))

/-- State of the reference-semantics merge: the `extracted_data` dict under
construction, the heap of list objects, and the next fresh address (all
input list objects live at addresses below `next`). -/
structure HState where
  merged : List (String × HVal)
  heap : Nat → List HVal
  next : Nat

/-- Pointwise update of a heap cell. -/
def heapSet (h : Nat → List HVal) (a : Nat) (l : List HVal) :
    Nat → List HVal :=
  fun b => if b = a then l else h b

/-- One iteration of the merge inner loop (data_extractor.py lines 100-112)
with Python reference semantics:

  * key absent: `extracted_data[key] = value` stores the value (for a list,
    the reference) without copying;
  * stored value is a list object and the new value is a list:
    `extend` appends the current elements of the new list to the stored
    list object in place;
  * stored value is a list object, new value is not: `append` in place;
  * stored value is not a list: `extracted_data[key] = [old, value]`
    allocates a fresh two-element list object. -/
def mergeKVH (s : HState) (k : String) (v : HVal) : HState :=
  match lookupA s.merged k with
  | some cur =>
      match cur with
      | .ref a =>
          match v with
          | .ref b => { s with heap := heapSet s.heap a (s.heap a ++ s.heap b) }
          | _ => { s with heap := heapSet s.heap a (s.heap a ++ [v]) }
      | _ =>
          { merged := setA s.merged k (.ref s.next),
            heap := heapSet s.heap s.next [cur, v],
            next := s.next + 1 }
  | none => { s with merged := setA s.merged k v }

/-- The fallback merge loop over all pages, reference semantics, pages in
input list order, `None` pages skipped. -/
def runMergeH (pages : List HPage) (s : HState) : HState :=
  pages.foldl
    (fun s p =>
      match p.ocr_contents with
      | some contents => contents.foldl (fun s kv => mergeKVH s kv.1 kv.2) s
      | none => s)
    s

/-- Keys contributed by one reference-semantics page. -/
def pageKeysH (p : HPage) : List String :=
  match p.ocr_contents with
  | some contents => contents.map Prod.fst
  | none => []

/-! ### Tabular Projection Engine (json_to_dataframe.py) -/

/-- One DataFrame row: an ordered mapping from column name to cell value. -/
abbrev Row := List (String × Val)

/-- Embedding of a pandas DataFrame as its list of rows. -/
abbrev Table := List Row

/-- The `dataframes` dict built by the projection: table name to table,
insertion ordered. -/
abbrev DFs := List (String × Table)

/-- The fixed sentinel label of the shared generic table
(json_to_dataframe.py lines 58-62). -/
def igLabel : String := "Informations générales"

/-- The guard of case 1 (json_to_dataframe.py line 47):
`isinstance(value, list) and len(value) > 0 and isinstance(value[0], dict)`. -/
def isRecordList : Val → Bool
  | .list (.dict _ :: _) => true
  | _ => false

/-- Embedding of `pd.DataFrame(value)` on a list of records: one row per
element, each element contributing its own columns.  An element that is not
a mapping makes the pandas constructor fail (it reads `.keys()` off every
record); this is embedded as an error. -/
def pdRecords : List Val → Except String Table
  | [] => .ok []
  | .dict d :: rest => (pdRecords rest).map (fun t => d :: t)
  | _ :: _ => .error "pandas: list element is not a record"

/-- Embedding of the pandas column assignment `df[key] = [value]` on the
generic table: on a zero-row DataFrame it creates one row; on a one-row
DataFrame it sets the column in that row (replacing an existing column of
the same name); on a DataFrame with two or more rows the one-element value
list does not match the index length and pandas raises `ValueError`. -/
def assignCol (t : Table) (k : String) (v : Val) : Except String Table :=
  match t with
  | [] => .ok [[(k, v)]]
  | [r] => .ok [setA r k v]
  | _ => .error "ValueError: Length of values does not match length of index"

/-- Embedding of json_to_dataframe.py lines 58-59: create the empty generic
DataFrame if no table of that name exists yet. -/
def ensureIG (dfs : DFs) : DFs :=
  if (lookupA dfs igLabel).isSome then dfs else dfs ++ [(igLabel, ([] : Table))]

/-- Embedding of case 3 of the projection loop (json_to_dataframe.py lines
57-62): route the value of `k` into one column of the shared generic table. -/
def genericAdd (dfs : DFs) (k : String) (v : Val) : Except String DFs :=
  match lookupA (ensureIG dfs) igLabel with
  | some t => (assignCol t k v).map (fun t2 => setA (ensureIG dfs) igLabel t2)
  | none => .error "unreachable: generic table was just ensured"

/-- One iteration of the projection loop (json_to_dataframe.py lines 45-62):
case 1 list-of-records, case 2 mapping, case 3 everything else. -/
def projStep (dfs : DFs) (k : String) (v : Val) : Except String DFs :=
  if isRecordList v then
    match v with
    | .list l => (pdRecords l).map (fun t => setA dfs k t)
    | _ => .error "unreachable: isRecordList implies a list"
  else
    match v with
    | .dict d => .ok (setA dfs k [d])
    | _ => genericAdd dfs k v

/-- The placeholder result returned when the data is falsy or a string
(json_to_dataframe.py lines 37-39). -/
def erreurDFs : DFs :=
  [("Erreur", [[("Message", .str "Aucune donnée extraite ou format incorrect")]])]

/-- Embedding of `JsonToDataFrame.create_dataframe_from_extraction_result`
(json_to_dataframe.py lines 22-71) on the dynamic value held in
`extraction_result.extracted_data`:

  * falsy or string data returns the one-row `Erreur` placeholder;
  * a truthy mapping is folded by the three-case loop, then the dead
    `if not dataframes` branch (lines 64-69) rebuilds a generic table from
    the scalar entries — dead because a truthy mapping always creates at
    least one table;
  * a truthy non-string non-mapping value reaches `.items()` and raises
    `AttributeError`, embedded as an error. -/
def create_dataframe_from_extraction_result (extracted_data : Val) :
    Except String DFs :=
  if !(pyTruthy extracted_data) || extracted_data.isStr then
    .ok erreurDFs
  else
    match extracted_data with
    | .dict items => do
        let dfs ← items.foldlM (fun dfs kv => projStep dfs kv.1 kv.2) []
        if dfs.isEmpty then
          let simple := items.filter (fun kv => !kv.2.isList && !kv.2.isDict)
          if simple.isEmpty then
            pure []
          else
            pure [(igLabel, [simple])]
        else
          pure dfs
    | _ => .error "AttributeError: object has no attribute items"

/-- Embedding of the type dispatch of `extract_dataframes_from_ocr_json`
(json_to_dataframe.py lines 189-228): the argument is a StructuredOCR, an
ExtractionResult, a raw dict, or some other Python value. -/
inductive OcrInput where
  | structured : StructuredOCRV → OcrInput
  | extraction : ExtractionResultV → OcrInput
  | rawDict : List (String × Val) → OcrInput
  | other : Val → OcrInput

/-- Embedding of pydantic construction of `ExtractionResult` with a dynamic
`extracted_data` argument: the field is declared `dict`, so a non-mapping
value raises a validation error. -/
def ExtractionResult.validate (pdf_file prompt_name : String)
    (extracted_data : Val) : Except String ExtractionResultV :=
  match extracted_data with
  | .dict d => .ok ⟨pdf_file, prompt_name, d⟩
  | _ => .error "ValidationError: extracted_data is not a dict"

/-- Embedding of `extract_dataframes_from_ocr_json` (json_to_dataframe.py
lines 189-228).  A raw dict carrying both a `file_name` and an
`ocr_contents` key is unwrapped through `ExtractionResult` validation;
any other raw dict is used as the extracted data directly; a value of an
unsupported type raises `TypeError` (lines 223-225). -/
def extract_dataframes_from_ocr_json (ocr_result : OcrInput) :
    Except String DFs :=
  match ocr_result with
  | .structured s =>
      create_dataframe_from_extraction_result (.dict s.ocr_contents)
  | .rawDict d =>
      if (lookupA d "file_name").isSome && (lookupA d "ocr_contents").isSome then
        match lookupA d "ocr_contents" with
        | some contents => do
            let er ← ExtractionResult.validate "document.pdf" "default" contents
            create_dataframe_from_extraction_result (.dict er.extracted_data)
        | none => .error "unreachable: ocr_contents was just found"
      else
        create_dataframe_from_extraction_result (.dict d)
  | .extraction er =>
      create_dataframe_from_extraction_result (.dict er.extracted_data)
  | .other _ => .error "TypeError: Type de resultat OCR non pris en charge"

/-! ### Export Adapter name sanitization (json_to_dataframe.py lines 136-137) -/

/-- Python `str.isalnum` restricted to the Basic Latin and Latin-1 Unicode
blocks, where the embedding is faithful: ASCII letters and digits, the
Latin-1 letters ª µ º À-ÿ (excluding × and ÷) and the Latin-1 numeric
characters ² ³ ¹ ¼ ½ ¾. -/
def pyIsAlnumLatin1 (c : Char) : Bool :=
  c.isAlphanum ||
  c.toNat == 0xAA || c.toNat == 0xB5 || c.toNat == 0xBA ||
  c.toNat == 0xB2 || c.toNat == 0xB3 || c.toNat == 0xB9 ||
  c.toNat == 0xBC || c.toNat == 0xBD || c.toNat == 0xBE ||
  (0xC0 ≤ c.toNat && c.toNat ≤ 0xFF &&
    !(c.toNat == 0xD7) && !(c.toNat == 0xF7))

/-- Python `str.lower` on one character, restricted to the Basic Latin and
Latin-1 blocks: ASCII uppercase and the Latin-1 uppercase letters À-Þ
(excluding ×) map down by 0x20; everything else is unchanged. -/
def pyToLowerLatin1 (c : Char) : Char :=
  if c.isUpper then c.toLower
  else if 0xC0 ≤ c.toNat && c.toNat ≤ 0xDE && !(c.toNat == 0xD7) then
    Char.ofNat (c.toNat + 0x20)
  else c

/-- Embedding of the name cleaning of `JsonToDataFrame.export_dataframe`
(json_to_dataframe.py lines 136-137), parametric in the alphanumeric test
and the lowercase map:

    safe_name = "".join(c if c.isalnum() or c in " _-" else "_" for c in name)
    safe_name = safe_name.replace(" ", "_").lower()

All three passes are per-character, so the composition is written as one
structural recursion over the characters. -/
def safeNameCode (isAln : Char → Bool) (toLow : Char → Char) :
    List Char → List Char
  | [] => []
  | c :: cs =>
      let kept := if isAln c || c = ' ' || c = '_' || c = '-' then c else '_'
      let repl := if kept = ' ' then '_' else kept
      toLow repl :: safeNameCode isAln toLow cs

/-- Modelled from the specification words, first step: retain alphanumeric
characters, spaces, hyphens, underscores; replace every other character with
underscore. -/
def retainRule (isAln : Char → Bool) (name : List Char) : List Char :=
  name.map fun c => if isAln c || c = ' ' || c = '-' || c = '_' then c else '_'

/-- Modelled from the specification words, second step: replace spaces with
underscores. -/
def spacesToUnderscores (name : List Char) : List Char :=
  name.map fun c => if c = ' ' then '_' else c

/-- Modelled from the specification words, third step: lowercase the result. -/
def lowercaseAll (toLow : Char → Char) (name : List Char) : List Char :=
  name.map toLow

/-- The specification reading of the sanitization rule: the three steps in
order. -/
def safeNameSpec (isAln : Char → Bool) (toLow : Char → Char)
    (name : List Char) : List Char :=
  lowercaseAll toLow (spacesToUnderscores (retainRule isAln name))

/-- A character permitted by the claimed output alphabet: a lowercase letter
(ASCII or Latin-1), a digit, an underscore, or a hyphen. -/
def lowerLetterDigitUnderscoreHyphen (c : Char) : Bool :=
  (Char.ofNat 0x61 ≤ c && c ≤ Char.ofNat 0x7A) ||
  (0xDF ≤ c.toNat && c.toNat ≤ 0xFF && !(c.toNat == 0xF7)) ||
  c.isDigit || c = '_' || c = '-'

/-! ### Claim C6 -/

/-- C6, corrected claim: data that is falsy (in particular, an empty
mapping) or a string makes
`JsonToDataFrame.create_dataframe_from_extraction_result` return the single
`Erreur` table with exactly one placeholder row, without error; the claimed
never-raises behaviour for every non-mapping input is refuted separately,
since `extract_dataframes_from_ocr_json` raises `TypeError` on a raw
scalar. -/
theorem C6_placeholder_on_empty_or_string (data : Val)
    (h : pyTruthy data = false ∨ data.isStr = true) :
    create_dataframe_from_extraction_result data = .ok erreurDFs ∧
    erreurDFs.length = 1 ∧ ∀ nt ∈ erreurDFs, nt.2.length = 1 := by
  refine ⟨?_, rfl, by decide⟩
  rcases h with h | h
  · unfold create_dataframe_from_extraction_result
    rw [h]
    simp
  · unfold create_dataframe_from_extraction_result
    rw [h]
    simp

/-- Witness for C6: the empty mapping and an error string both produce the
placeholder table. -/
theorem C6_placeholder_witness :
    create_dataframe_from_extraction_result (.dict []) = .ok erreurDFs ∧
    create_dataframe_from_extraction_result (.str "OCR failed") = .ok erreurDFs :=
  ⟨(C6_placeholder_on_empty_or_string (.dict []) (Or.inl rfl)).1,
   (C6_placeholder_on_empty_or_string (.str "OCR failed") (Or.inr rfl)).1⟩

/-- C6 counterexample: the claim says an extracted datum that is a raw
scalar yields a placeholder table and never an error, but
`extract_dataframes_from_ocr_json` (json_to_dataframe.py lines 223-225)
raises `TypeError` on the raw scalar `5`. -/
theorem C6_counterexample :
    exceptOk (extract_dataframes_from_ocr_json (.other (.int 5))) = false ∧
    extract_dataframes_from_ocr_json (.other (.int 5)) =
      .error "TypeError: Type de resultat OCR non pris en charge" :=
  ⟨rfl, rfl⟩

/-! ### Claim C7 -/

/-- C7 counterexample: constructing a `PDFPage` with a non-positive
`page_number` succeeds, because models.py line 23 declares a bare `int`
with no positivity constraint — the claimed validation error does not
exist. -/
theorem C7_counterexample :
    exceptOk (PDFPage.validate 0 "page_1.png" none) = true ∧
    exceptOk (PDFPage.validate (-3) "page_1.png" none) = true :=
  ⟨rfl, rfl⟩

/-- C7, corrected claim: `PDFPage` construction succeeds for every integer
`page_number` (no positivity validation exists), while `StructuredOCR`
construction succeeds exactly when its `ocr_contents` argument is a
mapping. -/
theorem C7_validation_behaviour :
    (∀ (n : Int) (path : String) (od : Option StructuredOCRV),
        exceptOk (PDFPage.validate n path od) = true) ∧
    (∀ (fn : String) (v : Val),
        exceptOk (StructuredOCR.validate fn v) = v.isDict) := by
  constructor
  · intro n path od
    rfl
  · intro fn v
    cases v <;> rfl

/-! ### Claim C8 -/

/-- C8: the code sanitization (keep alphanumerics, spaces, hyphens,
underscores; underscore everything else; spaces to underscores; lowercase)
coincides with the specification reading of the rule for every name and
every alphanumeric test and lowercase map, and the sanitized name of
`"Pièces / Désignations"` uses only lowercase letters, digits, underscores
and hyphens. -/
theorem C8_sanitization_rule :
    (∀ (isAln : Char → Bool) (toLow : Char → Char) (name : List Char),
        safeNameCode isAln toLow name = safeNameSpec isAln toLow name) ∧
    (safeNameCode pyIsAlnumLatin1 pyToLowerLatin1
        "Pièces / Désignations".data).all lowerLetterDigitUnderscoreHyphen
      = true := by
  constructor
  · intro isAln toLow name
    induction name with
    | nil => rfl
    | cons c cs ih =>
        simp only [safeNameCode, safeNameSpec, retainRule, spacesToUnderscores,
          lowercaseAll, List.map_cons] at ih ⊢
        rw [ih]
        congr 1
        by_cases ha : isAln c <;> by_cases hs : c = ' ' <;>
          by_cases hu : c = '_' <;> by_cases hh : c = '-' <;>
            simp [ha, hs, hu, hh]
  · decide

/-! ### Claim C9 -/

/-- C9, corrected claim: `DataExtractor.extract_data` raises the
prompt-naming `ValueError` exactly when the requested prompt is not among
its loaded prompts; however, the claim that no path of the pipeline
proceeds with a substitute is refuted separately, because
`OCRProcessor.structured_ocr` swallows the missing-prompt error and
proceeds with an empty instruction text. -/
theorem C9_extract_data_error_iff_missing_prompt :
    (∀ (prompts : List (String × String)) (combined : Option StructuredOCRV)
        (pages : List PDFPageV) (prompt_name pdf_file : String),
        exceptOk (DataExtractor.extract_data prompts combined pages
            prompt_name pdf_file) = (lookupA prompts prompt_name).isSome) ∧
    (∀ (store : String → Option String) (p : String), store p = none →
        structuredOcrPromptText store (some p) = "") := by
  constructor
  · intro prompts combined pages prompt_name pdf_file
    unfold DataExtractor.extract_data
    cases h : lookupA prompts prompt_name <;> cases combined <;>
      simp [h, exceptOk]
  · intro store p h
    simp [structuredOcrPromptText, OCRProcessor.get_extraction_prompt, h]

/-- Witness for C9: with a prompt store containing only `facture`,
requesting `devis` raises and requesting `facture` succeeds, and a missing
prompt file yields the empty instruction text. -/
theorem C9_extract_data_error_witness :
    exceptOk (DataExtractor.extract_data [("facture", "contenu")] none []
        "devis" "doc.pdf") = false ∧
    exceptOk (DataExtractor.extract_data [("facture", "contenu")] none []
        "facture" "doc.pdf") = true ∧
    structuredOcrPromptText (fun _ => none) (some "facture") = "" := by
  refine ⟨?_, ?_, C9_extract_data_error_iff_missing_prompt.2 (fun _ => none) "facture" rfl⟩
  · have h := C9_extract_data_error_iff_missing_prompt.1 [("facture", "contenu")]
      none [] "devis" "doc.pdf"
    simpa using h
  · have h := C9_extract_data_error_iff_missing_prompt.1 [("facture", "contenu")]
      none [] "facture" "doc.pdf"
    simpa using h

/-- C9 counterexample: `OCRProcessor.structured_ocr` (ocr_processor.py lines
100-106) catches the `FileNotFoundError` for a missing extraction prompt
and proceeds with the same empty instruction text as if no prompt had been
requested — a silent substitution, contradicting the claim that no path of
the extraction pipeline proceeds with a substitute. -/
theorem C9_counterexample :
    structuredOcrPromptText (fun _ => none) (some "inexistant") =
      structuredOcrPromptText (fun _ => none) none ∧
    structuredOcrPromptText (fun _ => none) (some "inexistant") = "" ∧
    exceptOk (OCRProcessor.get_extraction_prompt (fun _ => none) "inexistant")
      = false :=
  ⟨rfl, rfl, rfl⟩

/-! ### Key order of the fallback merge (claim C1) -/

theorem keys_mergeKV (m : List (String × Val)) (k : String) (v : Val) :
    (mergeKV m k v).map Prod.fst =
      if k ∈ m.map Prod.fst then m.map Prod.fst
      else m.map Prod.fst ++ [k] := by
  have hiff := lookupA_isSome_iff_mem_keys m k
  cases h : lookupA m k with
  | none =>
      have hmem : ¬ k ∈ m.map Prod.fst := by
        rw [← hiff]
        simp [h]
      simp only [mergeKV, h, keys_setA]
      simp [h, hmem]
  | some cur =>
      have hmem : k ∈ m.map Prod.fst := by
        rw [← hiff]
        simp [h]
      have hset : ∀ v' : Val, (setA m k v').map Prod.fst = m.map Prod.fst := by
        intro v'
        rw [keys_setA]
        simp [h]
      cases cur <;> cases v <;> simp [mergeKV, h, hset, hmem]

theorem keys_foldKVs (kvs : List (String × Val)) :
    ∀ m : List (String × Val),
      ((kvs.foldl (fun m kv => mergeKV m kv.1 kv.2) m)).map Prod.fst =
        kvs.foldl (fun acc kv => if kv.1 ∈ acc then acc else acc ++ [kv.1])
          (m.map Prod.fst) := by
  induction kvs with
  | nil => intro m; rfl
  | cons kv rest ih =>
      intro m
      simp only [List.foldl_cons]
      rw [ih, keys_mergeKV]

theorem keys_merge_pages (pages : List PDFPageV) :
    ∀ m : List (String × Val),
      ((pages.foldl
          (fun m p =>
            match p.ocr_data with
            | some od => od.ocr_contents.foldl (fun m kv => mergeKV m kv.1 kv.2) m
            | none => m) m)).map Prod.fst =
        (pages.flatMap pageKeys).foldl
          (fun acc k => if k ∈ acc then acc else acc ++ [k])
          (m.map Prod.fst) := by
  induction pages with
  | nil => intro m; rfl
  | cons p rest ih =>
      intro m
      simp only [List.foldl_cons, List.flatMap_cons, List.foldl_append]
      cases hod : p.ocr_data with
      | none => simp [pageKeys, hod, ih]
      | some od =>
          rw [ih, keys_foldKVs]
          simp [pageKeys, hod, List.foldl_map]

/-- C1, corrected claim: for every non-empty list of pages carrying
`ocr_data` with distinct `page_number` values, the key order of the
fallback-merged `extracted_data` is the order of first appearance of keys
when the pages are scanned in the order of the input list (the loop
`for page in pdf_pages` of data_extractor.py line 96 never sorts by
`page_number`). -/
theorem C1_key_order_input_list (pages : List PDFPageV)
    (_hne : pages ≠ [])
    (_hnodup : (pages.map PDFPageV.page_number).Nodup)
    (_hdata : ∀ p ∈ pages, p.ocr_data.isSome = true) :
    (extractDataFallbackMerge pages).map Prod.fst =
      firstSeen (pages.flatMap pageKeys) := by
  unfold extractDataFallbackMerge firstSeen
  simpa using keys_merge_pages pages []

/-- Witness for C1: two concrete pages in input order. -/
theorem C1_key_order_witness :
    (extractDataFallbackMerge
        [⟨1, "p1.png", some ⟨"f1", [("a", .int 1)]⟩⟩,
         ⟨2, "p2.png", some ⟨"f2", [("b", .int 2)]⟩⟩]).map Prod.fst =
      firstSeen
        ([⟨1, "p1.png", some ⟨"f1", [("a", .int 1)]⟩⟩,
          ⟨2, "p2.png", some ⟨"f2", [("b", .int 2)]⟩⟩].flatMap pageKeys) :=
  C1_key_order_input_list _ (List.cons_ne_nil _ _)
    (by decide)
    (by decide)

/-- C1 counterexample: pages presented in descending `page_number` order.
The fallback merge produces keys in input list order `[b, a]`, while the
claimed ascending-`page_number` scan order is `[a, b]`; the claim fails
although the input is non-empty, all pages carry `ocr_data`, and the page
numbers are distinct. -/
theorem C1_counterexample :
    (extractDataFallbackMerge
        [⟨2, "p2.png", some ⟨"f2", [("b", .int 2)]⟩⟩,
         ⟨1, "p1.png", some ⟨"f1", [("a", .int 1)]⟩⟩]).map Prod.fst = ["b", "a"] ∧
    firstSeen
      ((sortPagesAsc
          [⟨2, "p2.png", some ⟨"f2", [("b", .int 2)]⟩⟩,
           ⟨1, "p1.png", some ⟨"f1", [("a", .int 1)]⟩⟩]).flatMap pageKeys) =
      ["a", "b"] ∧
    (["b", "a"] : List String) ≠ ["a", "b"] ∧
    List.Nodup
      (List.map PDFPageV.page_number
        ([⟨2, "p2.png", some ⟨"f2", [("b", .int 2)]⟩⟩,
          ⟨1, "p1.png", some ⟨"f1", [("a", .int 1)]⟩⟩] : List PDFPageV)) :=
  ⟨rfl, rfl, by decide, by decide⟩

/-! ### Per-key value rules of the fallback merge (claim C2) -/

/-- Folding the claimed per-key rule into an optional accumulator: `none`
means the key has not been seen yet, so the next value is inserted
unchanged. -/
def mergeInto : Option Val → List Val → Option Val
  | o, [] => o
  | some c, v :: vs => mergeInto (some (merge2 c v)) vs
  | none, v :: vs => mergeInto (some v) vs

theorem mergeInto_append (l1 l2 : List Val) :
    ∀ o : Option Val, mergeInto o (l1 ++ l2) = mergeInto (mergeInto o l1) l2 := by
  induction l1 with
  | nil =>
      intro o
      rw [List.nil_append]
      cases o <;> rfl
  | cons v vs ih =>
      intro o
      cases o <;> simp only [List.cons_append, mergeInto] <;> exact ih _

theorem mergeInto_some (vs : List Val) :
    ∀ c : Val, mergeInto (some c) vs = some (foldVals c vs) := by
  induction vs with
  | nil => intro c; rfl
  | cons v rest ih =>
      intro c
      simp only [mergeInto, foldVals, List.foldl_cons]
      exact ih (merge2 c v)

theorem lookupA_mergeKV_self (m : List (String × Val)) (k : String) (v : Val) :
    lookupA (mergeKV m k v) k =
      some (match lookupA m k with
            | none => v
            | some c => merge2 c v) := by
  cases h : lookupA m k with
  | none => simp [mergeKV, h, lookupA_setA_self]
  | some c => cases c <;> cases v <;> simp [mergeKV, merge2, h, lookupA_setA_self]

theorem lookupA_mergeKV_ne (m : List (String × Val)) (k1 k : String) (v : Val)
    (h : k ≠ k1) : lookupA (mergeKV m k1 v) k = lookupA m k := by
  cases h1 : lookupA m k1 with
  | none => simp [mergeKV, h1, lookupA_setA_ne _ _ _ _ h]
  | some c =>
      cases c <;> cases v <;> simp [mergeKV, h1, lookupA_setA_ne _ _ _ _ h]

theorem lookupA_foldKVs (kvs : List (String × Val)) (k : String) :
    ∀ m : List (String × Val),
      lookupA (kvs.foldl (fun m kv => mergeKV m kv.1 kv.2) m) k =
        mergeInto (lookupA m k)
          ((kvs.filter (fun kv => kv.1 == k)).map Prod.snd) := by
  induction kvs with
  | nil =>
      intro m
      cases hk : lookupA m k <;> simp [hk, mergeInto]
  | cons kv rest ih =>
      intro m
      obtain ⟨k1, v⟩ := kv
      by_cases hk : k1 = k
      · subst hk
        simp only [List.foldl_cons, List.filter_cons, beq_self_eq_true,
          if_true, List.map_cons]
        rw [ih, lookupA_mergeKV_self]
        cases h : lookupA m k1 <;> simp [mergeInto]
      · simp only [List.foldl_cons, List.filter_cons]
        rw [ih, lookupA_mergeKV_ne _ _ _ _ (Ne.symm hk)]
        simp [hk]

/-- C2, as claimed: for every page sequence handled by the fallback merge,
the merged value under each key is the fold of the reference rules over the
occurrences of that key in scan order — the first occurrence is inserted
unchanged, a later occurrence extends a stored list with a list value or
appends a non-list value, and a stored non-list is promoted to the
two-element list of old and new value, list semantics persisting from then
on. -/
theorem C2_merge_value_rules (pages : List PDFPageV) (k : String) :
    lookupA (extractDataFallbackMerge pages) k =
      match occurrences k pages with
      | [] => none
      | v :: vs => some (foldVals v vs) := by
  have main : ∀ m : List (String × Val),
      lookupA
        (pages.foldl
          (fun m p =>
            match p.ocr_data with
            | some od => od.ocr_contents.foldl (fun m kv => mergeKV m kv.1 kv.2) m
            | none => m) m) k =
        mergeInto (lookupA m k) (occurrences k pages) := by
    induction pages with
    | nil =>
        intro m
        cases hk : lookupA m k <;> simp [hk, mergeInto, occurrences]
    | cons p rest ih =>
        intro m
        simp only [List.foldl_cons, occurrences, List.flatMap_cons]
        rw [mergeInto_append]
        cases hod : p.ocr_data with
        | none => simp [hod, occurrences, mergeInto, ih]
        | some od =>
            simp only [hod]
            rw [ih, lookupA_foldKVs]
            rfl
  rw [extractDataFallbackMerge, main []]
  simp only [lookupA]
  cases occurrences k pages with
  | nil => rfl
  | cons v vs => exact mergeInto_some vs v

/-! ### Frame behaviour of the fallback merge (claim C4) -/

theorem mergeH_fresh_kvs (kvs : List (String × HVal)) :
    ∀ s : HState,
      (kvs.map Prod.fst).Nodup →
      (∀ k ∈ kvs.map Prod.fst, lookupA s.merged k = none) →
      kvs.foldl (fun s kv => mergeKVH s kv.1 kv.2) s =
        ⟨s.merged ++ kvs, s.heap, s.next⟩ := by
  induction kvs with
  | nil =>
      intro s _ _
      cases s
      simp
  | cons kv rest ih =>
      intro s hnd habs
      obtain ⟨k, v⟩ := kv
      have hk : lookupA s.merged k = none := habs k (by simp)
      have hstep : mergeKVH s k v = ⟨s.merged ++ [(k, v)], s.heap, s.next⟩ := by
        cases s
        simp [mergeKVH, hk, setA_absent _ _ _ hk]
      simp only [List.map_cons, List.nodup_cons] at hnd
      simp only [List.foldl_cons, hstep]
      rw [ih ⟨s.merged ++ [(k, v)], s.heap, s.next⟩ hnd.2]
      · simp
      · intro k' hk'
        have hne : k' ≠ k := fun h => hnd.1 (h ▸ hk')
        have h1 : lookupA s.merged k' = none := habs k' (by simp [hk'])
        rw [lookupA_append_right _ _ _ h1]
        simp [lookupA, hne, Ne.symm hne]

/-- Flattened per-page contents in scan order; a page with no `ocr_data`
contributes nothing. -/
def flatContentsH (pages : List HPage) : List (String × HVal) :=
  pages.flatMap (fun p => p.ocr_contents.getD [])

theorem runMergeH_fresh (pages : List HPage) :
    ∀ s : HState,
      (pages.flatMap pageKeysH).Nodup →
      (∀ k ∈ pages.flatMap pageKeysH, lookupA s.merged k = none) →
      runMergeH pages s = ⟨s.merged ++ flatContentsH pages, s.heap, s.next⟩ := by
  induction pages with
  | nil =>
      intro s _ _
      cases s
      simp [runMergeH, flatContentsH]
  | cons p rest ih =>
      intro s hnd habs
      simp only [List.flatMap_cons] at hnd habs
      rw [List.nodup_append] at hnd
      cases hc : p.ocr_contents with
      | none =>
          have hkeys : pageKeysH p = [] := by simp [pageKeysH, hc]
          have h1 : runMergeH (p :: rest) s = runMergeH rest s := by
            simp [runMergeH, hc]
          rw [h1, ih s hnd.2.1]
          · simp [flatContentsH, hc]
          · intro k hk
            exact habs k (by simp [hkeys, hk])
      | some c =>
          have hkeys : pageKeysH p = c.map Prod.fst := by simp [pageKeysH, hc]
          have hstep :
              c.foldl (fun s kv => mergeKVH s kv.1 kv.2) s =
                ⟨s.merged ++ c, s.heap, s.next⟩ := by
            refine mergeH_fresh_kvs c s ?_ ?_
            · rw [← hkeys]; exact hnd.1
            · intro k hk
              exact habs k (by simp [hkeys, hk])
          have h1 : runMergeH (p :: rest) s =
              runMergeH rest ⟨s.merged ++ c, s.heap, s.next⟩ := by
            simp [runMergeH, hc, hstep]
          rw [h1, ih ⟨s.merged ++ c, s.heap, s.next⟩ hnd.2.1]
          · simp [flatContentsH, hc]
          · intro k hk
            have h2 : lookupA s.merged k = none := habs k (by simp [hk])
            rw [lookupA_append_right _ _ _ h2]
            have hnmem : ¬ k ∈ c.map Prod.fst := by
              intro hmem
              exact hnd.2.2 (hkeys ▸ hmem) hk
            cases h3 : lookupA c k with
            | none => rfl
            | some w =>
                exact absurd ((lookupA_isSome_iff_mem_keys c k).mp (by simp [h3]))
                  hnmem

/-- C4, corrected claim: the fallback merge leaves every heap cell — hence
every list object reachable from the input pages — unchanged, provided no
key occurs in the contents of more than one position across the pages; the
claimed unconditional immutability is refuted separately, because a key
whose first stored value is a list and that occurs again later makes the
merge extend that very list object in place. -/
theorem C4_no_mutation_on_distinct_keys (heap0 : Nat → List HVal) (next0 : Nat)
    (pages : List HPage) (h : (pages.flatMap pageKeysH).Nodup) :
    ∀ a : Nat, (runMergeH pages ⟨[], heap0, next0⟩).heap a = heap0 a := by
  intro a
  rw [runMergeH_fresh pages ⟨[], heap0, next0⟩ h (fun k _ => rfl)]

/-- Witness for C4: two pages with distinct keys, one of them carrying a
list object at heap address 0; after the merge the cell is untouched. -/
theorem C4_no_mutation_witness :
    (runMergeH
        [⟨1, some [("items", .ref 0)]⟩, ⟨2, some [("total", .scalar "9")]⟩]
        ⟨[], (fun a => if a = 0 then [.scalar "A"] else []), 1⟩).heap 0 =
      (fun a => if a = 0 then [HVal.scalar "A"] else []) 0 :=
  C4_no_mutation_on_distinct_keys _ 1 _ (by decide) 0

/-- C4 counterexample: two pages both carrying the key `items`, the first
with the list object at address 0 holding `[A]`, the second with the list
object at address 1 holding `[B]`.  The merge executes
`extracted_data["items"].extend(value)` on the very list object of the
first page, mutating cell 0 from `[A]` to `[A, B]` — the input pages are
mutated beyond the documented back-fill. -/
theorem C4_counterexample :
    (runMergeH
        [⟨1, some [("items", .ref 0)]⟩, ⟨2, some [("items", .ref 1)]⟩]
        ⟨[], (fun a => if a = 0 then [.scalar "A"]
                        else if a = 1 then [.scalar "B"] else []), 2⟩).heap 0 =
      [.scalar "A", .scalar "B"] ∧
    (fun a => if a = 0 then [HVal.scalar "A"]
              else if a = 1 then [HVal.scalar "B"] else []) 0 = [.scalar "A"] ∧
    ¬ ([HVal.scalar "A", HVal.scalar "B"] = [HVal.scalar "A"]) :=
  ⟨rfl, rfl, fun h => by simpa using congrArg List.length h⟩

/-! ### Further association-list lemmas for the projection proofs -/

theorem lookupA_append_ne (m : List (String × α)) (a k : String) (b : α)
    (h : k ≠ a) : lookupA (m ++ [(a, b)]) k = lookupA m k := by
  induction m with
  | nil => simp [lookupA, Ne.symm h]
  | cons hd tl ih =>
      obtain ⟨k₀, v₀⟩ := hd
      by_cases h₀ : k₀ = k <;> simp [lookupA, h₀, ih]

theorem lookupA_eq_none_of_not_mem (m : List (String × α)) (k : String)
    (h : ¬ k ∈ m.map Prod.fst) : lookupA m k = none := by
  cases hl : lookupA m k with
  | none => rfl
  | some w =>
      exact absurd ((lookupA_isSome_iff_mem_keys m k).mp (by simp [hl])) h

theorem exceptOk_bind (a : α) (f : α → Except ε β) :
    (Except.ok a >>= f) = f a := rfl

theorem exceptMap_ok (f : α → β) (a : α) :
    (Except.map f (Except.ok a) : Except ε β) = Except.ok (f a) := rfl

theorem lookupA_of_mem_nodup (m : List (String × α)) (k : String) (v : α)
    (hnd : (m.map Prod.fst).Nodup) (hm : (k, v) ∈ m) :
    lookupA m k = some v := by
  induction m with
  | nil => cases hm
  | cons hd tl ih =>
      obtain ⟨k₀, v₀⟩ := hd
      simp only [List.map_cons, List.nodup_cons] at hnd
      rcases List.mem_cons.mp hm with h | h
      · injection h with h1 h2
        subst h1
        subst h2
        simp [lookupA]
      · have hk : k₀ ≠ k := by
          intro he
          apply hnd.1
          subst he
          exact List.mem_map.mpr ⟨(k₀, v), h, rfl⟩
        simp [lookupA, hk, ih hnd.2 h]

theorem mem_setA (m : List (String × α)) (k : String) (v : α) (x : String × α)
    (h : x ∈ setA m k v) : x ∈ m ∨ x = (k, v) := by
  induction m with
  | nil => simp [setA] at h; simp [h]
  | cons hd tl ih =>
      obtain ⟨k₀, v₀⟩ := hd
      by_cases h₀ : k₀ = k
      · simp only [setA, h₀, beq_self_eq_true, if_true] at h
        rcases List.mem_cons.mp h with h | h
        · subst h₀; right; simp [h]
        · left; simp [h]
      · simp only [setA, beq_iff_eq, h₀, if_false] at h
        rcases List.mem_cons.mp h with h | h
        · left; simp [h]
        · rcases ih h with h | h
          · left; simp [h]
          · right; exact h

/-! ### Claim C10 -/

/-- C10, as claimed: the generic-table label is not reserved.  When the
extracted data binds the key `Informations générales` to a mapping (so the
record rule creates a table of that name) and a later key holds a scalar,
the scalar key is added as an additional column of that existing one-row
table, and no separate generic table is created. -/
theorem C10_sentinel_label_not_reserved (d : Row) (k2 : String) (v : Val)
    (_h1 : k2 ≠ igLabel) (h2 : v.isScalar = true) (h3 : lookupA d k2 = none) :
    create_dataframe_from_extraction_result
        (.dict [(igLabel, .dict d), (k2, v)]) =
      .ok [(igLabel, [d ++ [(k2, v)]])] := by
  have hstep1 : projStep [] igLabel (Val.dict d) = .ok [(igLabel, [d])] := by
    simp [projStep, isRecordList, setA]
  have hgen : genericAdd [(igLabel, [d])] k2 v =
      .ok [(igLabel, [d ++ [(k2, v)]])] := by
    simp [genericAdd, ensureIG, lookupA, assignCol, setA,
      setA_absent _ _ _ h3, exceptMap_ok]
  have hstep2 : projStep [(igLabel, [d])] k2 v =
      .ok [(igLabel, [d ++ [(k2, v)]])] := by
    cases v with
    | list l => simp [Val.isScalar] at h2
    | dict d2 => simp [Val.isScalar] at h2
    | str s => simpa [projStep, isRecordList] using hgen
    | int n => simpa [projStep, isRecordList] using hgen
    | bool b => simpa [projStep, isRecordList] using hgen
    | null => simpa [projStep, isRecordList] using hgen
  unfold create_dataframe_from_extraction_result
  simp only [pyTruthy, Val.isStr, List.isEmpty_cons, Bool.not_false,
    Bool.true_or, Bool.or_false, Bool.not_true, Bool.false_or,
    List.foldlM_cons, List.foldlM_nil, hstep1, exceptOk_bind, hstep2]
  rfl

/-- Witness for C10: a record table named with the sentinel label gains the
later scalar key `y` as a new column. -/
theorem C10_sentinel_label_witness :
    create_dataframe_from_extraction_result
        (.dict [(igLabel, .dict [("x", .int 1)]), ("y", .int 2)]) =
      .ok [(igLabel, [[("x", Val.int 1), ("y", Val.int 2)]])] :=
  C10_sentinel_label_not_reserved [("x", .int 1)] "y" (.int 2)
    (by decide) rfl rfl

/-! ### Claim C3: classification rules of the projection -/

/-- A value routed to the shared generic table: neither a record list nor a
mapping. -/
def isGenericVal (v : Val) : Bool := !(isRecordList v) && !(v.isDict)

/-- Row read off one element of a record list. -/
def recOf : Val → Row
  | .dict d => d
  | _ => []

/-- Rows of the table built from a list of records: one row per element,
each element contributing its own columns. -/
def recordRows (l : List Val) : Table := l.map recOf

/-- Whether a value, if classified as a record list, consists of mappings
only — the shapes on which the pandas record constructor succeeds. -/
def recordListOK : Val → Bool
  | .list (.dict _ :: rest) => rest.all Val.isDict
  | _ => true

theorem pdRecords_ok (l : List Val) (h : l.all Val.isDict = true) :
    pdRecords l = .ok (recordRows l) := by
  induction l with
  | nil => rfl
  | cons v rest ih =>
      simp only [List.all_cons, Bool.and_eq_true] at h
      cases v with
      | dict d =>
          simp only [pdRecords, ih h.2, recordRows, List.map_cons, recOf]
          rfl
      | str s => simp [Val.isDict] at h
      | int n => simp [Val.isDict] at h
      | bool b => simp [Val.isDict] at h
      | null => simp [Val.isDict] at h
      | list l2 => simp [Val.isDict] at h

theorem isRecordList_inv (v : Val) (h : isRecordList v = true)
    (hok : recordListOK v = true) :
    ∃ l, v = Val.list l ∧ l ≠ [] ∧ l.all Val.isDict = true := by
  cases v with
  | list l =>
      cases l with
      | nil => simp [isRecordList] at h
      | cons v0 rest =>
          cases v0 with
          | dict d0 =>
              refine ⟨Val.dict d0 :: rest, rfl, by simp, ?_⟩
              simp only [recordListOK] at hok
              simp [Val.isDict, hok]
          | str s => simp [isRecordList] at h
          | int n => simp [isRecordList] at h
          | bool b => simp [isRecordList] at h
          | null => simp [isRecordList] at h
          | list l2 => simp [isRecordList] at h
  | str s => simp [isRecordList] at h
  | int n => simp [isRecordList] at h
  | bool b => simp [isRecordList] at h
  | null => simp [isRecordList] at h
  | dict d => simp [isRecordList] at h

theorem mem_keys_filter (p : String × Val → Bool) (ps : List (String × Val))
    (k : String) (h : k ∈ (ps.filter p).map Prod.fst) :
    k ∈ ps.map Prod.fst := by
  obtain ⟨kv, hkv, hfst⟩ := List.mem_map.mp h
  exact List.mem_map.mpr ⟨kv, (List.mem_filter.mp hkv).1, hfst⟩

/-- Invariant of the projection loop over a processed prefix `ps` of the
extracted items: every unprocessed non-sentinel key has no table yet, every
processed record-list or mapping key has exactly the claimed table, and the
generic table exists precisely when a generic value has been processed, in
which case it holds the single row of the generic entries in order. -/
def ProjInv (ps : List (String × Val)) (dfs : DFs) : Prop :=
  (∀ k, ¬ k ∈ ps.map Prod.fst → k ≠ igLabel → lookupA dfs k = none) ∧
  (∀ kv ∈ ps,
    (∀ l, kv.2 = Val.list l → isRecordList kv.2 = true →
        lookupA dfs kv.1 = some (recordRows l)) ∧
    (∀ d, kv.2 = Val.dict d → lookupA dfs kv.1 = some [d])) ∧
  (lookupA dfs igLabel =
    if (ps.filter (fun kv => isGenericVal kv.2)).isEmpty then none
    else some [ps.filter (fun kv => isGenericVal kv.2)])

theorem projStep_preserves (ps : List (String × Val)) (dfs : DFs)
    (k : String) (v : Val)
    (hInv : ProjInv ps dfs)
    (hfresh : ¬ k ∈ ps.map Prod.fst)
    (hig : k ≠ igLabel)
    (higps : ¬ igLabel ∈ ps.map Prod.fst)
    (hok : recordListOK v = true) :
    ∃ dfs', projStep dfs k v = .ok dfs' ∧ ProjInv (ps ++ [(k, v)]) dfs' := by
  obtain ⟨hA, hB, hC⟩ := hInv
  have hkey_ne : ∀ kv ∈ ps, kv.1 ≠ k := by
    intro kv hm he
    exact hfresh (he ▸ List.mem_map.mpr ⟨kv, hm, rfl⟩)
  by_cases hrec : isRecordList v = true
  · obtain ⟨l, rfl, hlne, hall⟩ := isRecordList_inv v hrec hok
    refine ⟨setA dfs k (recordRows l), ?_, ?_, ?_, ?_⟩
    · simp [projStep, hrec, pdRecords_ok l hall, exceptMap_ok]
    · intro k' hk' hig'
      simp only [List.map_append, List.map_cons, List.map_nil,
        List.mem_append, List.mem_cons, List.mem_singleton, not_or] at hk'
      rw [lookupA_setA_ne _ _ _ _ hk'.2.1]
      exact hA k' hk'.1 hig'
    · intro kv hm
      rcases List.mem_append.mp hm with hm | hm
      · have hne : kv.1 ≠ k := hkey_ne kv hm
        constructor
        · intro l' hl' hrl'
          rw [lookupA_setA_ne _ _ _ _ hne]
          exact (hB kv hm).1 l' hl' hrl'
        · intro d' hd'
          rw [lookupA_setA_ne _ _ _ _ hne]
          exact (hB kv hm).2 d' hd'
      · have hkv : kv = (k, Val.list l) := by simpa using hm
        subst hkv
        constructor
        · intro l' hl' _
          have heq : l = l' := by
            injection hl' with h
          subst heq
          simp [lookupA_setA_self]
        · intro d' hd'
          cases hd'
    · have hgen : isGenericVal (Val.list l) = false := by
        simp [isGenericVal, hrec]
      have hfilt : (ps ++ [(k, Val.list l)]).filter (fun kv => isGenericVal kv.2)
          = ps.filter (fun kv => isGenericVal kv.2) := by
        simp [List.filter_append, hgen]
      rw [lookupA_setA_ne _ _ _ _ (Ne.symm hig), hfilt]
      exact hC
  · by_cases hdict : v.isDict = true
    · obtain ⟨d, rfl⟩ : ∃ d, v = Val.dict d := by
        cases v <;> simp [Val.isDict] at hdict
        exact ⟨_, rfl⟩
      refine ⟨setA dfs k [d], ?_, ?_, ?_, ?_⟩
      · simp [projStep, isRecordList]
      · intro k' hk' hig'
        simp only [List.map_append, List.map_cons, List.map_nil,
          List.mem_append, List.mem_cons, List.mem_singleton, not_or] at hk'
        rw [lookupA_setA_ne _ _ _ _ hk'.2.1]
        exact hA k' hk'.1 hig'
      · intro kv hm
        rcases List.mem_append.mp hm with hm | hm
        · have hne : kv.1 ≠ k := hkey_ne kv hm
          constructor
          · intro l' hl' hrl'
            rw [lookupA_setA_ne _ _ _ _ hne]
            exact (hB kv hm).1 l' hl' hrl'
          · intro d' hd'
            rw [lookupA_setA_ne _ _ _ _ hne]
            exact (hB kv hm).2 d' hd'
        · have hkv : kv = (k, Val.dict d) := by simpa using hm
          subst hkv
          constructor
          · intro l' hl' _
            cases hl'
          · intro d' hd'
            have heq : d = d' := by
              injection hd' with h
            subst heq
            simp [lookupA_setA_self]
      · have hgen : isGenericVal (Val.dict d) = false := by
          simp [isGenericVal, Val.isDict]
        have hfilt : (ps ++ [(k, Val.dict d)]).filter (fun kv => isGenericVal kv.2)
            = ps.filter (fun kv => isGenericVal kv.2) := by
          simp [List.filter_append, hgen]
        rw [lookupA_setA_ne _ _ _ _ (Ne.symm hig), hfilt]
        exact hC
    · have hgen : isGenericVal v = true := by
        simp [isGenericVal, hrec, hdict]
      have hproj : projStep dfs k v = genericAdd dfs k v := by
        cases v with
        | dict d => simp [Val.isDict] at hdict
        | list l => simp [projStep, hrec]
        | str s => simp [projStep, isRecordList]
        | int n => simp [projStep, isRecordList]
        | bool b => simp [projStep, isRecordList]
        | null => simp [projStep, isRecordList]
      by_cases hgs : (ps.filter (fun kv => isGenericVal kv.2)).isEmpty = true
      · have hgsnil : ps.filter (fun kv => isGenericVal kv.2) = [] :=
          List.isEmpty_iff.mp hgs
        have hCnone : lookupA dfs igLabel = none := by
          rw [hC, hgs]
          rfl
        have hens : ensureIG dfs = dfs ++ [(igLabel, ([] : Table))] := by
          simp [ensureIG, hCnone]
        have hlook1 : lookupA (dfs ++ [(igLabel, ([] : Table))]) igLabel
            = some ([] : Table) := by
          rw [lookupA_append_right _ _ _ hCnone]
          simp [lookupA]
        refine ⟨setA (dfs ++ [(igLabel, ([] : Table))]) igLabel [[(k, v)]],
          ?_, ?_, ?_, ?_⟩
        · rw [hproj]
          simp [genericAdd, hens, hlook1, assignCol, exceptMap_ok]
        · intro k' hk' hig'
          simp only [List.map_append, List.map_cons, List.map_nil,
            List.mem_append, List.mem_cons, List.mem_singleton, not_or] at hk'
          rw [lookupA_setA_ne _ _ _ _ hig',
            lookupA_append_ne _ _ _ _ hig']
          exact hA k' hk'.1 hig'
        · intro kv hm
          rcases List.mem_append.mp hm with hm | hm
          · have hne : kv.1 ≠ igLabel := by
              intro he
              exact higps (he ▸ List.mem_map.mpr ⟨kv, hm, rfl⟩)
            constructor
            · intro l' hl' hrl'
              rw [lookupA_setA_ne _ _ _ _ hne, lookupA_append_ne _ _ _ _ hne]
              exact (hB kv hm).1 l' hl' hrl'
            · intro d' hd'
              rw [lookupA_setA_ne _ _ _ _ hne, lookupA_append_ne _ _ _ _ hne]
              exact (hB kv hm).2 d' hd'
          · have hkv : kv = (k, v) := by simpa using hm
            subst hkv
            constructor
            · intro l' hl' hrl'
              have hrl2 : isRecordList v = true := hrl'
              exact absurd hrl2 hrec
            · intro d' hd'
              have hv : v = Val.dict d' := hd'
              have hd2 : v.isDict = true := by
                rw [hv]
                rfl
              exact absurd hd2 hdict
        · have hfilt : (ps ++ [(k, v)]).filter (fun kv => isGenericVal kv.2)
              = [(k, v)] := by
            simp [List.filter_append, hgsnil, hgen]
          rw [lookupA_setA_self, hfilt]
          simp
      · have hgsne : ¬ ps.filter (fun kv => isGenericVal kv.2) = [] := by
          intro he
          exact hgs (by simp [he])
        have hCsome : lookupA dfs igLabel =
            some [ps.filter (fun kv => isGenericVal kv.2)] := by
          rw [hC]
          simp [List.isEmpty_iff, hgsne]
        have hens : ensureIG dfs = dfs := by
          simp [ensureIG, hCsome]
        have hknotgs : lookupA (ps.filter (fun kv => isGenericVal kv.2)) k
            = none := by
          apply lookupA_eq_none_of_not_mem
          intro hmem
          exact hfresh (mem_keys_filter _ _ _ hmem)
        refine ⟨setA dfs igLabel
          [(ps.filter (fun kv => isGenericVal kv.2)) ++ [(k, v)]], ?_, ?_, ?_, ?_⟩
        · rw [hproj]
          simp [genericAdd, hens, hCsome, assignCol, exceptMap_ok,
            setA_absent _ _ _ hknotgs]
        · intro k' hk' hig'
          simp only [List.map_append, List.map_cons, List.map_nil,
            List.mem_append, List.mem_cons, List.mem_singleton, not_or] at hk'
          rw [lookupA_setA_ne _ _ _ _ hig']
          exact hA k' hk'.1 hig'
        · intro kv hm
          rcases List.mem_append.mp hm with hm | hm
          · have hne : kv.1 ≠ igLabel := by
              intro he
              exact higps (he ▸ List.mem_map.mpr ⟨kv, hm, rfl⟩)
            constructor
            · intro l' hl' hrl'
              rw [lookupA_setA_ne _ _ _ _ hne]
              exact (hB kv hm).1 l' hl' hrl'
            · intro d' hd'
              rw [lookupA_setA_ne _ _ _ _ hne]
              exact (hB kv hm).2 d' hd'
          · have hkv : kv = (k, v) := by simpa using hm
            subst hkv
            constructor
            · intro l' hl' hrl'
              have hrl2 : isRecordList v = true := hrl'
              exact absurd hrl2 hrec
            · intro d' hd'
              have hv : v = Val.dict d' := hd'
              have hd2 : v.isDict = true := by
                rw [hv]
                rfl
              exact absurd hd2 hdict
        · have hfilt : (ps ++ [(k, v)]).filter (fun kv => isGenericVal kv.2)
              = (ps.filter (fun kv => isGenericVal kv.2)) ++ [(k, v)] := by
            simp [List.filter_append, hgen]
          rw [lookupA_setA_self, hfilt]
          simp

theorem projFold_inv (rest : List (String × Val)) :
    ∀ (ps : List (String × Val)) (dfs : DFs),
      ((ps ++ rest).map Prod.fst).Nodup →
      ¬ igLabel ∈ (ps ++ rest).map Prod.fst →
      (∀ kv ∈ rest, recordListOK kv.2 = true) →
      ProjInv ps dfs →
      ∃ dfs', rest.foldlM (fun dfs kv => projStep dfs kv.1 kv.2) dfs = .ok dfs' ∧
        ProjInv (ps ++ rest) dfs' := by
  induction rest with
  | nil =>
      intro ps dfs _ _ _ hInv
      exact ⟨dfs, rfl, by simpa using hInv⟩
  | cons kv rest' ih =>
      intro ps dfs hnd hig hok hInv
      obtain ⟨k, v⟩ := kv
      have hrearr : (ps ++ (k, v) :: rest') = ((ps ++ [(k, v)]) ++ rest') := by
        simp
      have hndmap : (ps.map Prod.fst ++ (k :: rest'.map Prod.fst)).Nodup := by
        simpa using hnd
      rw [List.nodup_append] at hndmap
      have hfresh : ¬ k ∈ ps.map Prod.fst := by
        intro hmem
        exact hndmap.2.2 hmem (by simp)
      have higk : k ≠ igLabel := by
        intro he
        exact hig (by simp [he])
      have higps : ¬ igLabel ∈ ps.map Prod.fst := by
        intro hmem
        exact hig (by simp [hmem])
      obtain ⟨dfs1, hstep, hInv1⟩ :=
        projStep_preserves ps dfs k v hInv hfresh higk higps
          (hok (k, v) (by simp))
      obtain ⟨dfs', hfold, hInv'⟩ := ih (ps ++ [(k, v)]) dfs1
        (by rw [← hrearr]; exact hnd)
        (by rw [← hrearr]; exact hig)
        (fun kv hm => hok kv (by simp [hm]))
        hInv1
      refine ⟨dfs', ?_, ?_⟩
      · rw [List.foldlM_cons]
        show (projStep dfs k v >>= fun dfs =>
          rest'.foldlM (fun dfs kv => projStep dfs kv.1 kv.2) dfs) = .ok dfs'
        rw [hstep, exceptOk_bind]
        exact hfold
      · rw [hrearr]
        exact hInv'

theorem lookupA_ne_none_of_nonempty_helper (dfs : DFs) (x : String) (t : Table)
    (h : lookupA dfs x = some t) : dfs ≠ [] := by
  intro he
  subst he
  cases h

/-- C3, corrected claim: for every non-empty extracted mapping with
distinct keys, none of them the sentinel label, and whose record lists
contain mappings only, the projection classifies each top-level key as
claimed: a record list becomes a table of that name with one row per
element, a mapping becomes a table of that name with exactly one row, and
every other key becomes one column of the single shared one-row table named
with the sentinel label. -/
theorem C3_classification (items : List (String × Val))
    (hne : items ≠ [])
    (hnd : (items.map Prod.fst).Nodup)
    (hig : ¬ igLabel ∈ items.map Prod.fst)
    (hok : ∀ kv ∈ items, recordListOK kv.2 = true) :
    ∃ dfs, create_dataframe_from_extraction_result (.dict items) = .ok dfs ∧
      ∀ kv ∈ items,
        (∀ l, kv.2 = Val.list l → isRecordList kv.2 = true →
            lookupA dfs kv.1 = some (recordRows l)) ∧
        (∀ d, kv.2 = Val.dict d → lookupA dfs kv.1 = some [d]) ∧
        (isGenericVal kv.2 = true →
          ∃ r, lookupA dfs igLabel = some [r] ∧ lookupA r kv.1 = some kv.2) := by
  have hInv0 : ProjInv [] [] := by
    refine ⟨fun k _ _ => rfl, by simp, by simp [lookupA]⟩
  obtain ⟨dfs, hfold, hInv⟩ := projFold_inv items [] []
    (by simpa using hnd) (by simpa using hig) hok hInv0
  have hInv' : ProjInv items dfs := by simpa using hInv
  obtain ⟨hA, hB, hC⟩ := hInv'
  have hgs_lookup : ∀ kv ∈ items, isGenericVal kv.2 = true →
      ∃ r, lookupA dfs igLabel = some [r] ∧ lookupA r kv.1 = some kv.2 := by
    intro kv hm hgen
    have hmemf : kv ∈ items.filter (fun kv => isGenericVal kv.2) :=
      List.mem_filter.mpr ⟨hm, hgen⟩
    have hgsne : ¬ (items.filter (fun kv => isGenericVal kv.2)).isEmpty = true := by
      intro he
      rw [List.isEmpty_iff.mp he] at hmemf
      cases hmemf
    refine ⟨items.filter (fun kv => isGenericVal kv.2), ?_, ?_⟩
    · rw [hC]
      simp [hgsne]
    · have hsub : ((items.filter (fun kv => isGenericVal kv.2)).map Prod.fst).Nodup := by
        refine List.Nodup.sublist ?_ hnd
        exact List.Sublist.map Prod.fst (List.filter_sublist items)
      have : (kv.1, kv.2) ∈ items.filter (fun kv => isGenericVal kv.2) := by
        simpa using hmemf
      exact lookupA_of_mem_nodup _ kv.1 kv.2 hsub this
  have hdfs_ne : dfs ≠ [] := by
    cases items with
    | nil => exact absurd rfl hne
    | cons kv0 rest =>
        have hm0 : kv0 ∈ kv0 :: rest := by simp
        by_cases hgen : isGenericVal kv0.2 = true
        · obtain ⟨r, hr, _⟩ := hgs_lookup kv0 hm0 hgen
          exact lookupA_ne_none_of_nonempty_helper dfs igLabel [r] hr
        · by_cases hrec : isRecordList kv0.2 = true
          · obtain ⟨l, hl, _, _⟩ :=
              isRecordList_inv kv0.2 hrec (hok kv0 hm0)
            have := (hB kv0 hm0).1 l hl hrec
            exact lookupA_ne_none_of_nonempty_helper dfs kv0.1 _ this
          · have hdict : kv0.2.isDict = true := by
              by_contra hcon
              have hrec2 : isRecordList kv0.2 = false := by simpa using hrec
              have hcon2 : kv0.2.isDict = false := by simpa using hcon
              exact hgen (by simp [isGenericVal, hrec2, hcon2])
            obtain ⟨d, hd⟩ : ∃ d, kv0.2 = Val.dict d := by
              cases hv : kv0.2 <;> rw [hv] at hdict <;>
                simp [Val.isDict] at hdict
              exact ⟨_, rfl⟩
            have := (hB kv0 hm0).2 d hd
            exact lookupA_ne_none_of_nonempty_helper dfs kv0.1 _ this
  refine ⟨dfs, ?_, ?_⟩
  · unfold create_dataframe_from_extraction_result
    have hguard : (!(pyTruthy (Val.dict items)) || (Val.dict items).isStr) = false := by
      simp [pyTruthy, Val.isStr, List.isEmpty_iff, hne]
    rw [hguard]
    simp only [Bool.false_eq_true, if_false]
    show (items.foldlM (fun dfs kv => projStep dfs kv.1 kv.2) [] >>= fun dfs =>
      if dfs.isEmpty then
        (if (items.filter (fun kv => !kv.2.isList && !kv.2.isDict)).isEmpty then
          pure []
         else
          pure [(igLabel,
            [items.filter (fun kv => !kv.2.isList && !kv.2.isDict)])])
      else pure dfs) = .ok dfs
    rw [hfold, exceptOk_bind]
    have hemp : dfs.isEmpty = false := by
      cases dfs with
      | nil => exact absurd rfl hdfs_ne
      | cons a b => rfl
    simp only [hemp, Bool.false_eq_true, if_false]
    rfl
  · intro kv hm
    exact ⟨(hB kv hm).1, (hB kv hm).2, hgs_lookup kv hm⟩

/-- Witness for C3: an invoice-like mapping with a record list, a single
record, and a scalar key. -/
theorem C3_classification_witness :
    ∃ dfs, create_dataframe_from_extraction_result
        (.dict [("Items", .list [.dict [("sku", .str "A")], .dict [("sku", .str "B")]]),
                ("Customer", .dict [("name", .str "Acme")]),
                ("InvoiceNumber", .str "123")]) = .ok dfs ∧
      ∀ kv ∈ ([("Items", Val.list [.dict [("sku", .str "A")], .dict [("sku", .str "B")]]),
               ("Customer", Val.dict [("name", .str "Acme")]),
               ("InvoiceNumber", Val.str "123")] : List (String × Val)),
        (∀ l, kv.2 = Val.list l → isRecordList kv.2 = true →
            lookupA dfs kv.1 = some (recordRows l)) ∧
        (∀ d, kv.2 = Val.dict d → lookupA dfs kv.1 = some [d]) ∧
        (isGenericVal kv.2 = true →
          ∃ r, lookupA dfs igLabel = some [r] ∧ lookupA r kv.1 = some kv.2) :=
  C3_classification _ (List.cons_ne_nil _ _) (by decide) (by decide) (by decide)

/-- C3 counterexample: a mapping whose first key is literally the sentinel
label bound to the record `{"x": 1}`, followed by the scalar key `a`.  Rule
2 of the claim says the table named by that key has exactly one row whose
columns are the keys of the record — `["x"]` — but the produced table also
carries the column `a`, because the scalar case reuses the table of the
sentinel name instead of a fresh shared one. -/
theorem C3_counterexample :
    create_dataframe_from_extraction_result
        (.dict [(igLabel, .dict [("x", .int 1)]), ("a", .int 2)]) =
      .ok [(igLabel, [[("x", Val.int 1), ("a", Val.int 2)]])] ∧
    ([("x", Val.int 1), ("a", Val.int 2)] : Row).map Prod.fst = ["x", "a"] ∧
    (["x", "a"] : List String) ≠ ["x"] :=
  ⟨rfl, rfl, by decide⟩

/-! ### Claim C5: which cells stay scalar -/

/-- An element of a record list whose own values are all scalar. -/
def scalarRec : Val → Bool
  | .dict d => d.all (fun kv => kv.2.isScalar)
  | _ => false

/-- A top-level value whose projection produces only scalar cells: a
non-empty list of records with scalar fields, a record with scalar fields,
or a scalar routed into the generic table.  A non-record list (for example
a list of numbers, or the empty list) is not cell-safe: it lands whole
inside one generic-table cell. -/
def cellSafe : Val → Bool
  | .list l => !l.isEmpty && l.all scalarRec
  | .dict d => d.all (fun kv => kv.2.isScalar)
  | _ => true

/-- All cells of one table are scalar. -/
def tableCellsScalar (t : Table) : Bool :=
  t.all (fun r => r.all (fun kv => kv.2.isScalar))

/-- All cells of all produced tables are scalar. -/
def allCellsScalar (dfs : DFs) : Bool :=
  dfs.all (fun nt => tableCellsScalar nt.2)

theorem lookupA_mem (m : List (String × α)) (k : String) (v : α)
    (h : lookupA m k = some v) : (k, v) ∈ m := by
  induction m with
  | nil => cases h
  | cons hd tl ih =>
      obtain ⟨k₀, v₀⟩ := hd
      by_cases h₀ : k₀ = k
      · subst h₀
        simp only [lookupA, beq_self_eq_true, if_true, Option.some.injEq] at h
        subst h
        simp
      · simp only [lookupA, beq_iff_eq, h₀, if_false] at h
        simp [ih h]

theorem allCellsScalar_setA (dfs : DFs) (n : String) (t : Table)
    (hdfs : allCellsScalar dfs = true) (ht : tableCellsScalar t = true) :
    allCellsScalar (setA dfs n t) = true := by
  rw [allCellsScalar, List.all_eq_true]
  intro nt hm
  rcases mem_setA dfs n t nt hm with hm | hm
  · exact (List.all_eq_true.mp hdfs) nt hm
  · subst hm
    exact ht

theorem pdRecords_cells (l : List Val) :
    ∀ t : Table, l.all scalarRec = true → pdRecords l = .ok t →
      tableCellsScalar t = true := by
  induction l with
  | nil =>
      intro t _ h
      have h2 : t = [] := by
        injection h with h
        exact h.symm
      subst h2
      rfl
  | cons v rest ih =>
      intro t hall h
      simp only [List.all_cons, Bool.and_eq_true] at hall
      cases v with
      | dict d =>
          simp only [pdRecords] at h
          cases hr : pdRecords rest with
          | error e => rw [hr] at h; cases h
          | ok t' =>
              rw [hr, exceptMap_ok] at h
              injection h with h
              subst h
              rw [tableCellsScalar, List.all_cons]
              refine Bool.and_eq_true_iff.mpr ⟨?_, ?_⟩
              · simpa [scalarRec] using hall.1
              · exact ih t' hall.2 hr
      | str s => simp [scalarRec] at hall
      | int n => simp [scalarRec] at hall
      | bool b => simp [scalarRec] at hall
      | null => simp [scalarRec] at hall
      | list l2 => simp [scalarRec] at hall

theorem assignCol_cells (t : Table) (k : String) (v : Val) (t' : Table)
    (ht : tableCellsScalar t = true) (hv : v.isScalar = true)
    (h : assignCol t k v = .ok t') : tableCellsScalar t' = true := by
  cases t with
  | nil =>
      injection h with h
      subst h
      simp [tableCellsScalar, hv]
  | cons r rest =>
      cases rest with
      | nil =>
          injection h with h
          subst h
          simp only [tableCellsScalar, List.all_cons, List.all_nil,
            Bool.and_true] at ht ⊢
          rw [List.all_eq_true]
          intro kv hm
          rcases mem_setA r k v kv hm with hm | hm
          · exact (List.all_eq_true.mp ht) kv hm
          · subst hm
            exact hv
      | cons r2 rest2 => cases h

theorem genericAdd_cells (dfs : DFs) (k : String) (v : Val) (dfs' : DFs)
    (hdfs : allCellsScalar dfs = true) (hv : v.isScalar = true)
    (h : genericAdd dfs k v = .ok dfs') : allCellsScalar dfs' = true := by
  have hens : allCellsScalar (ensureIG dfs) = true := by
    unfold ensureIG
    by_cases hl : (lookupA dfs igLabel).isSome = true
    · simp [hl, hdfs]
    · simp only [hl, if_false, Bool.false_eq_true]
      rw [allCellsScalar, List.all_append]
      refine Bool.and_eq_true_iff.mpr ⟨hdfs, ?_⟩
      rfl
  unfold genericAdd at h
  cases hlook : lookupA (ensureIG dfs) igLabel with
  | none => rw [hlook] at h; cases h
  | some t =>
      rw [hlook] at h
      have h2 : Except.map (fun t2 => setA (ensureIG dfs) igLabel t2)
          (assignCol t k v) = Except.ok dfs' := h
      have ht : tableCellsScalar t = true := by
        have hm := lookupA_mem _ _ _ hlook
        exact (List.all_eq_true.mp hens) (igLabel, t) hm
      cases hassign : assignCol t k v with
      | error e => rw [hassign] at h2; cases h2
      | ok t2 =>
          rw [hassign, exceptMap_ok] at h2
          injection h2 with h2
          subst h2
          exact allCellsScalar_setA _ _ _ hens
            (assignCol_cells t k v t2 ht hv hassign)

theorem projStep_cells (dfs : DFs) (k : String) (v : Val) (dfs' : DFs)
    (hcs : cellSafe v = true) (hdfs : allCellsScalar dfs = true)
    (h : projStep dfs k v = .ok dfs') : allCellsScalar dfs' = true := by
  by_cases hrec : isRecordList v = true
  · cases v with
    | list l =>
        simp only [projStep, hrec, if_true] at h
        cases hpd : pdRecords l with
        | error e => rw [hpd] at h; cases h
        | ok t =>
            rw [hpd, exceptMap_ok] at h
            injection h with h
            subst h
            have hall : l.all scalarRec = true := by
              simp only [cellSafe, Bool.and_eq_true] at hcs
              exact hcs.2
            exact allCellsScalar_setA _ _ _ hdfs (pdRecords_cells l t hall hpd)
    | str s => simp [isRecordList] at hrec
    | int n => simp [isRecordList] at hrec
    | bool b => simp [isRecordList] at hrec
    | null => simp [isRecordList] at hrec
    | dict d => simp [isRecordList] at hrec
  · cases v with
    | dict d =>
        simp only [projStep, isRecordList, Bool.false_eq_true, if_false] at h
        injection h with h
        subst h
        refine allCellsScalar_setA _ _ _ hdfs ?_
        simpa [tableCellsScalar, cellSafe] using hcs
    | list l =>
        exfalso
        cases l with
        | nil => simp [cellSafe] at hcs
        | cons v0 rest =>
            have hall : scalarRec v0 = true := by
              simp only [cellSafe, List.isEmpty_cons, Bool.not_false,
                Bool.true_and, List.all_cons, Bool.and_eq_true] at hcs
              exact hcs.1
            cases v0 with
            | dict d0 => exact hrec rfl
            | str s => simp [scalarRec] at hall
            | int n => simp [scalarRec] at hall
            | bool b => simp [scalarRec] at hall
            | null => simp [scalarRec] at hall
            | list l2 => simp [scalarRec] at hall
    | str s =>
        simp only [projStep, isRecordList, Bool.false_eq_true, if_false] at h
        exact genericAdd_cells dfs k (Val.str s) dfs' hdfs rfl h
    | int n =>
        simp only [projStep, isRecordList, Bool.false_eq_true, if_false] at h
        exact genericAdd_cells dfs k (Val.int n) dfs' hdfs rfl h
    | bool b =>
        simp only [projStep, isRecordList, Bool.false_eq_true, if_false] at h
        exact genericAdd_cells dfs k (Val.bool b) dfs' hdfs rfl h
    | null =>
        simp only [projStep, isRecordList, Bool.false_eq_true, if_false] at h
        exact genericAdd_cells dfs k (Val.null) dfs' hdfs rfl h

theorem projFold_cells (items : List (String × Val)) :
    ∀ dfs dfs' : DFs,
      (∀ kv ∈ items, cellSafe kv.2 = true) →
      allCellsScalar dfs = true →
      items.foldlM (fun dfs kv => projStep dfs kv.1 kv.2) dfs = .ok dfs' →
      allCellsScalar dfs' = true := by
  induction items with
  | nil =>
      intro dfs dfs' _ hdfs h
      have h2 : dfs = dfs' := by
        injection h with h
      subst h2
      exact hdfs
  | cons kv rest ih =>
      intro dfs dfs' hsafe hdfs h
      rw [List.foldlM_cons] at h
      cases hstep : projStep dfs kv.1 kv.2 with
      | error e =>
          rw [hstep] at h
          have h2 : (Except.error e : Except String DFs) = .ok dfs' := h
          cases h2
      | ok dfs1 =>
          rw [hstep, exceptOk_bind] at h
          exact ih dfs1 dfs' (fun kv hm => hsafe kv (by simp [hm]))
            (projStep_cells dfs kv.1 kv.2 dfs1 (hsafe kv (by simp)) hdfs hstep) h

theorem create_dict_eq (items : List (String × Val)) (hne : items ≠ []) :
    create_dataframe_from_extraction_result (.dict items) =
      (items.foldlM (fun dfs kv => projStep dfs kv.1 kv.2) [] >>= fun dfs =>
        if dfs.isEmpty then
          (if (items.filter (fun kv => !kv.2.isList && !kv.2.isDict)).isEmpty then
            pure ([] : DFs)
          else
            pure [(igLabel,
              [items.filter (fun kv => !kv.2.isList && !kv.2.isDict)])])
        else pure dfs) := by
  unfold create_dataframe_from_extraction_result
  have hguard : (!(pyTruthy (Val.dict items)) || (Val.dict items).isStr) = false := by
    simp [pyTruthy, Val.isStr, List.isEmpty_iff, hne]
  rw [hguard]
  simp only [Bool.false_eq_true, if_false]

theorem scalar_of_not_list_dict (v : Val) (h1 : v.isList = false)
    (h2 : v.isDict = false) : v.isScalar = true := by
  cases v <;> simp_all [Val.isList, Val.isDict, Val.isScalar]

/-- C5, corrected claim: every cell of every table returned by the
projection is scalar provided every top-level value is cell-safe — a record
list of scalar-valued records, a scalar-valued record, or a scalar; the
unconditional claim is refuted separately by a non-record list value, which
survives whole into one generic-table cell. -/
theorem C5_cells_scalar (items : List (String × Val)) (dfs : DFs)
    (hsafe : ∀ kv ∈ items, cellSafe kv.2 = true)
    (h : create_dataframe_from_extraction_result (.dict items) = .ok dfs) :
    allCellsScalar dfs = true := by
  by_cases hne : items = []
  · subst hne
    have h2 : Except.ok erreurDFs = Except.ok dfs := h
    injection h2 with h2
    subst h2
    rfl
  · rw [create_dict_eq items hne] at h
    cases hf : items.foldlM (fun dfs kv => projStep dfs kv.1 kv.2) [] with
    | error e =>
        rw [hf] at h
        have h2 : (Except.error e : Except String DFs) = Except.ok dfs := h
        cases h2
    | ok dfs1 =>
        rw [hf, exceptOk_bind] at h
        by_cases he1 : dfs1.isEmpty = true
        · rw [he1] at h
          simp only [if_true] at h
          by_cases he2 :
              (items.filter (fun kv => !kv.2.isList && !kv.2.isDict)).isEmpty = true
          · rw [he2] at h
            simp only [if_true] at h
            have h2 : Except.ok ([] : DFs) = Except.ok dfs := h
            injection h2 with h2
            subst h2
            rfl
          · simp only [he2, Bool.false_eq_true, if_false] at h
            have h2 : Except.ok [(igLabel,
                [items.filter (fun kv => !kv.2.isList && !kv.2.isDict)])] =
                Except.ok dfs := h
            injection h2 with h2
            subst h2
            rw [allCellsScalar, List.all_eq_true]
            intro nt hm
            have hnt : nt = (igLabel,
                [items.filter (fun kv => !kv.2.isList && !kv.2.isDict)]) := by
              simpa using hm
            subst hnt
            rw [tableCellsScalar, List.all_eq_true]
            intro r hr
            have hrow : r = items.filter (fun kv => !kv.2.isList && !kv.2.isDict) := by
              simpa using hr
            subst hrow
            rw [List.all_eq_true]
            intro kv hkv
            have hp := (List.mem_filter.mp hkv).2
            simp only [Bool.and_eq_true, Bool.not_eq_true'] at hp
            exact scalar_of_not_list_dict kv.2 hp.1 hp.2
        · simp only [he1, Bool.false_eq_true, if_false] at h
          have h2 : Except.ok dfs1 = Except.ok dfs := h
          injection h2 with h2
          subst h2
          exact projFold_cells items [] dfs1 hsafe rfl hf

/-- Witness for C5: a mapping with a scalar, a record and a record list,
whose projection has only scalar cells. -/
theorem C5_cells_scalar_witness :
    allCellsScalar [("t", [[("x", Val.str "s")]]),
      (igLabel, [[("a", Val.int 1)]])] = true :=
  C5_cells_scalar [("t", .dict [("x", .str "s")]), ("a", .int 1)]
    [("t", [[("x", Val.str "s")]]), (igLabel, [[("a", Val.int 1)]])]
    (by decide) rfl

/-- C5 counterexample: the non-record list `[1, 2]` is routed to the
generic table and survives whole inside one cell — a list value in a cell,
contradicting the claim that no list survives into any table. -/
theorem C5_counterexample :
    create_dataframe_from_extraction_result (.dict [("k", .list [.int 1, .int 2])]) =
      .ok [(igLabel, [[("k", Val.list [.int 1, .int 2])]])] ∧
    Val.isScalar (Val.list [.int 1, .int 2]) = false ∧
    allCellsScalar [(igLabel, [[("k", Val.list [.int 1, .int 2])]])] = false :=
  ⟨rfl, rfl, rfl⟩
